import Mathlib

/-!
Verification development for the MF_player VLC-based terminal media player.

The repository is a set of near-duplicate Python scripts driving libVLC:
a playlist scanner, a command loop owning the current-track index, and an
end-of-track handler.  This file gives a shallow embedding of the parts of
the code that the verified properties are about:

* playlist.py          : clamp_index, find_media_files (over an abstract
                         filesystem model)
* util.py / player.py  : safe_get_volume, safe_set_volume, set_volume,
                         safe_stop (the VLC engine itself is modelled as a
                         record of volume, mute flag and play state)
* cli.py               : the inner command loop of main, as a step function
                         processCmd on a session state, plus the outer-loop
                         resumption that replays the current track
* MF_Player_Beta.py    : the STATE dictionary, the _on_track_end VLC event
                         callback and the ended-flag handling of main_loop
* MF_Player_ALPHA.py   : the class Playlist of the one-file variant

Python integers are embedded as Int (Python mod with a positive divisor
agrees with Int.emod), file paths as String, fallible operations as Option
or Except.  String helpers that the command parser needs (split, int
conversion, endswith, lower) are defined structurally over String.data so
that every definition evaluates by kernel reduction; they implement exactly
the Python semantics used on the command strings of this program.
-/

namespace MFPlayer

/-! ## String helpers (structurally recursive, kernel-reducible) -/

/-- Accumulate decimal digits; none when a non-digit appears.  Models the
digit loop of Python int(). -/
def digitsToNatAux : List Char → Nat → Option Nat
  | [], acc => some acc
  | c :: cs, acc =>
      if c.isDigit then digitsToNatAux cs (acc * 10 + (c.toNat - 48))
      else none

/-- Parse a nonempty all-digit character list; none otherwise. -/
def digitsToNat (ds : List Char) : Option Nat :=
  if ds = [] then none else digitsToNatAux ds 0

/-- Models Python int(s) on the stripped command tokens of this program:
an optional leading minus sign followed by at least one decimal digit. -/
def pyToInt (s : String) : Option Int :=
  match s.data with
  | [] => none
  | '-' :: ds => (digitsToNat ds).map (fun n => -(n : Int))
  | ds => (digitsToNat ds).map (fun n => (n : Int))

/-- Split on runs of spaces, discarding empty tokens.  Models Python
str.split() for the command strings of this program, which contain no
other whitespace after strip(). -/
def pySplitAux : List Char → List Char → List String
  | [], acc => if acc = [] then [] else [String.mk acc.reverse]
  | c :: cs, acc =>
      if c = ' ' then
        if acc = [] then pySplitAux cs []
        else String.mk acc.reverse :: pySplitAux cs []
      else pySplitAux cs (c :: acc)

/-- Models cmd.split() from cli.py. -/
def pySplit (s : String) : List String :=
  pySplitAux s.data []

/-- Models cmd.startswith of the two-character string consisting of v and a
space, the guard of the exact-volume branch of the command loops. -/
def startsWithVSpace (s : String) : Bool :=
  match s.data with
  | 'v' :: ' ' :: _ => true
  | _ => false

/-- Models Python str.lower via Char.toLower on each character. -/
def strToLower (s : String) : String :=
  String.mk (s.data.map Char.toLower)

/-- Models Python str.endswith(ext) by comparing the final characters. -/
def strEndsWith (s ext : String) : Bool :=
  if ext.data.length ≤ s.data.length then
    s.data.drop (s.data.length - ext.data.length) == ext.data
  else false

/-- Models full.lower().endswith(allowed_ext) where allowed_ext is a tuple
of extensions: true when some extension matches. -/
def endsWithAny (s : String) (exts : List String) : Bool :=
  exts.any (fun e => strEndsWith s e)

/-- Insertion step of an ascending-lexicographic sort. -/
def insertSorted (s : String) : List String → List String
  | [] => [s]
  | t :: ts => if s ≤ t then s :: t :: ts else t :: insertSorted s ts

/-- Models files.sort() from playlist.py: ascending string sort. -/
def sortStrings : List String → List String
  | [] => []
  | s :: ss => insertSorted s (sortStrings ss)

/-! ## playlist.py -/

/-- Translation of clamp_index from playlist.py (the identical copies in
MF_Player_ALPHA.py and MF_Player_Beta.py are this same function):
if n <= 0 return 0 else return index % n.  Python mod with a positive
divisor is Int.emod. -/
def clamp_index (index : Int) (n : Int) : Int :=
  if n ≤ 0 then 0 else index % n

/-- Abstract directory entry: a name and whether os.path.isfile holds of
the joined path. -/
structure FSEntry where
  name : String
  isFile : Bool
deriving DecidableEq

/-- Abstract filesystem view of one folder: whether os.path.isdir holds
and the os.listdir entries. -/
structure FS where
  isdir : Bool
  entries : List FSEntry
deriving DecidableEq

/-- ALLOWED_EXT from cli.py. -/
def ALLOWED_EXT : List String :=
  [".mp3", ".wav", ".flac", ".ogg", ".mp4", ".m4a"]

/-- Predicate of the scan loop in find_media_files: the entry is a file and
the lowercased joined path ends with an allowed extension. -/
def scanKeep (folder : String) (allowed : List String) (en : FSEntry) : Bool :=
  en.isFile && endsWithAny (strToLower (folder ++ "/" ++ en.name)) allowed

/-- Translation of find_media_files from playlist.py: raise
FileNotFoundError(folder) when the folder is not a directory, otherwise
collect the joined paths of matching files and sort them.  Raising is
embedded as Except.error carrying the folder name. -/
def find_media_files (folder : String) (fs : FS) (allowed : List String) :
    Except String (List String) :=
  if fs.isdir = false then Except.error folder
  else
    Except.ok (sortStrings
      (((fs.entries.filter (scanKeep folder allowed))).map
        (fun en => folder ++ "/" ++ en.name)))

/-! ## Startup sequence of cli.main -/

/-- Observable startup events of cli.main, in program order: the scan
raised and was caught, the scan returned an empty list, the VLC player
object was created, the process exited with a code. -/
inductive StartEvent where
  | scanFailed
  | emptyPlaylist
  | playerCreated
  | exited (code : Nat)
deriving DecidableEq

/-- Translation of the startup prefix of cli.main: find_media_files inside
try/except with sys.exit(1) on failure, then the empty check with
sys.exit(1), and only then create_player. -/
def mainStartup (folder : String) (fs : FS) : List StartEvent :=
  match find_media_files folder fs ALLOWED_EXT with
  | Except.error _ => [StartEvent.scanFailed, StartEvent.exited 1]
  | Except.ok files =>
      if files = [] then [StartEvent.emptyPlaylist, StartEvent.exited 1]
      else [StartEvent.playerCreated]

/-! ## The VLC engine, player.py and util.py wrappers -/

/-- Play state reported by the VLC media player. -/
inductive PlayState where
  | playing
  | paused
  | stopped
deriving DecidableEq

/-- Engine-owned state of the libVLC media player object: stored volume,
mute flag and play state. -/
structure Engine where
  volume : Int
  muted : Bool
  playState : PlayState
deriving DecidableEq

/-- Models player.audio_set_volume: the engine stores the given value. -/
def audio_set_volume (e : Engine) (n : Int) : Engine :=
  { e with volume := n }

/-- Models player.audio_get_volume. -/
def audio_get_volume (e : Engine) : Int :=
  e.volume

/-- Models player.audio_get_mute. -/
def audio_get_mute (e : Engine) : Bool :=
  e.muted

/-- Models player.audio_set_mute. -/
def audio_set_mute (e : Engine) (flag : Bool) : Engine :=
  { e with muted := flag }

/-- Models player.play(): the engine starts or resumes playback. -/
def enginePlay (e : Engine) : Engine :=
  { e with playState := PlayState.playing }

/-- Models player.pause(): libVLC pause is a toggle between playing and
paused, with no effect when stopped. -/
def enginePause (e : Engine) : Engine :=
  { e with playState :=
      match e.playState with
      | PlayState.playing => PlayState.paused
      | PlayState.paused => PlayState.playing
      | PlayState.stopped => PlayState.stopped }

/-- Models player.stop(). -/
def engineStop (e : Engine) : Engine :=
  { e with playState := PlayState.stopped }

/-- Translation of safe_get_volume from util.py: the stored volume, or the
default 50 when the engine reports a negative value. -/
def safe_get_volume (e : Engine) : Int :=
  if e.volume < 0 then 50 else e.volume

/-- Translation of safe_set_volume from util.py: clamp the value to
0..100, store it, and return the volume read back. -/
def safe_set_volume (e : Engine) (value : Int) : Engine × Int :=
  let val := max 0 (min 100 value)
  let e2 := audio_set_volume e val
  (e2, safe_get_volume e2)

/-- Translation of safe_stop from util.py: player.stop() with exceptions
swallowed. -/
def safe_stop (e : Engine) : Engine :=
  engineStop e

/-- Translation of set_volume from player.py:
player.audio_set_volume(max(0, min(100, int(n)))). -/
def set_volume (e : Engine) (n : Int) : Engine :=
  audio_set_volume e (max 0 (min 100 n))

/-! ## The command loop of cli.main -/

/-- Session state threaded through the loops of cli.main: the current track
index, the scanned playlist, the folder argument and filesystem (used by
the pl rescan command), and the engine. -/
structure CliSt where
  current : Int
  files : List String
  folder : String
  fs : FS
  engine : Engine
deriving DecidableEq

/-- Result of one pass of the inner command loop of cli.main: stay in the
inner loop, break to the outer loop to start a new track, or return from
main. -/
inductive InnerOutcome where
  | stay
  | newTrack
  | quit
deriving DecidableEq

/-- Translation of the exact-volume branch of cli.main (cmd starting with
v and a space): split the command, and when a second token parses as an
int, clamp it to 0..100 and call safe_set_volume; otherwise print an error
and change nothing. -/
def handleVSet (st : CliSt) (cmd : String) : CliSt × InnerOutcome :=
  match (pySplit cmd)[1]? with
  | none => (st, InnerOutcome.stay)
  | some tok =>
      match pyToInt tok with
      | none => (st, InnerOutcome.stay)
      | some val0 =>
          let val := max 0 (min 100 val0)
          ({ st with engine := (safe_set_volume st.engine val).1 }, InnerOutcome.stay)

/-- Translation of one pass of the inner command loop of cli.main, branch
for branch in source order.  The command string is already stripped and
lowercased, as in cli.main.  Print statements are omitted; engine calls
act on the engine model. -/
def processCmd (st : CliSt) (cmd : String) : CliSt × InnerOutcome :=
  if cmd = "play" ∨ cmd = "p" then
    ({ st with engine := enginePlay st.engine }, InnerOutcome.stay)
  else if cmd = "pause" then
    ({ st with engine := enginePause st.engine }, InnerOutcome.stay)
  else if cmd = "stop" ∨ cmd = "s" then
    ({ st with engine := safe_stop st.engine }, InnerOutcome.stay)
  else if cmd = "volume" ∨ cmd = "vol" then
    (st, InnerOutcome.stay)
  else if cmd = "v+" then
    let cur := safe_get_volume st.engine
    let new := min 100 (cur + 10)
    ({ st with engine := (safe_set_volume st.engine new).1 }, InnerOutcome.stay)
  else if cmd = "v-" then
    let cur := safe_get_volume st.engine
    let new := max 0 (cur - 10)
    ({ st with engine := (safe_set_volume st.engine new).1 }, InnerOutcome.stay)
  else if startsWithVSpace cmd then
    handleVSet st cmd
  else if cmd = "m" ∨ cmd = "mute" then
    ({ st with engine := audio_set_mute st.engine (!audio_get_mute st.engine) },
     InnerOutcome.stay)
  else if cmd = "next" ∨ cmd = "n" then
    ({ st with engine := safe_stop st.engine,
               current := clamp_index (st.current + 1) (st.files.length : Int) },
     InnerOutcome.newTrack)
  else if cmd = "prev" ∨ cmd = "b" ∨ cmd = "back" then
    ({ st with engine := safe_stop st.engine,
               current := clamp_index (st.current - 1) (st.files.length : Int) },
     InnerOutcome.newTrack)
  else if cmd = "pl" then
    match find_media_files st.folder st.fs ALLOWED_EXT with
    | Except.ok files2 => ({ st with files := files2 }, InnerOutcome.stay)
    | Except.error _ => (st, InnerOutcome.stay)
  else if cmd = "exit" ∨ cmd = "quit" then
    ({ st with engine := safe_stop st.engine }, InnerOutcome.quit)
  else
    (st, InnerOutcome.stay)

/-- Models one resumption of the outer loop of cli.main after a break from
the inner loop: play_track(player, inst, files[current]) runs inside
try/except.  With playOk false the call raised; the exception is caught,
the failure is printed (second component true) and control falls back into
the inner command loop with the session state otherwise unchanged. -/
def outerResume (st : CliSt) (playOk : Bool) : CliSt × Bool :=
  if playOk then ({ st with engine := enginePlay st.engine }, false)
  else (st, true)

/-- One processed next command, as a state transformer (the first component
of processCmd). -/
def stepNext (st : CliSt) : CliSt :=
  (processCmd st "next").1

/-- One processed prev command, as a state transformer. -/
def stepPrev (st : CliSt) : CliSt :=
  (processCmd st "prev").1

/-- Stored engine volume after each command of a stream, in order. -/
def runVolumes (st : CliSt) : List String → List Int
  | [] => []
  | c :: cs =>
      let st2 := (processCmd st c).1
      st2.engine.volume :: runVolumes st2 cs

/-! ## MF_Player_Beta.py: STATE, the end-of-track callback and main_loop -/

/-- Translation of the session-relevant fields of the STATE dictionary of
MF_Player_Beta.py.  The Python key repeat is named repeatFlag here because
repeat is a Lean keyword. -/
structure BetaState where
  current : Int
  repeatFlag : Bool
  ended : Bool
  next_index : Int
  files : List String
deriving DecidableEq

/-- Translation of _on_track_end from MF_Player_Beta.py: with
n = len(files) or 1, set next_index to the current index when repeat is on
and to (current + 1) % n otherwise, then set the ended flag.  The callback
mutates no other field. -/
def on_track_end (st : BetaState) : BetaState :=
  let cur := st.current
  let n : Int := if st.files.length = 0 then 1 else (st.files.length : Int)
  if st.repeatFlag then
    { st with next_index := cur, ended := true }
  else
    { st with next_index := (cur + 1) % n, ended := true }

/-- Translation of the ended-flag check of one iteration of the inner loop
of main_loop in MF_Player_Beta.py: when the ended flag is set, consume it,
move current to clamp_index(next_index, len(files)) and break to the outer
loop, which then calls play_track once for the new current track.  The
second component lists the indices for which a play directive is issued by
that iteration (one entry after an end event, none otherwise). -/
def betaLoopIterAfterEnd (st : BetaState) : BetaState × List Int :=
  if st.ended then
    let cur := clamp_index st.next_index (st.files.length : Int)
    ({ st with ended := false, current := cur }, [cur])
  else (st, [])

/-! ## MF_Player_ALPHA.py one-file variant: class Playlist -/

/-- Translation of class Playlist from the one-file section of
MF_Player_ALPHA.py: a list of paths and a current index (a Python int,
embedded as Int). -/
structure Playlist where
  items : List String
  index : Int
deriving DecidableEq

/-- Translation of Playlist.current: None on an empty list, otherwise the
item at the current index.  Reading at an index outside the list (which
would raise IndexError in Python and cannot happen while the class
invariant holds) is embedded as none. -/
def Playlist.current (p : Playlist) : Option String :=
  if p.items = [] then none else p.items[p.index.toNat]?

/-- Translation of Playlist.add: append the path. -/
def Playlist.add (p : Playlist) (path : String) : Playlist :=
  { p with items := p.items ++ [path] }

/-- Translation of Playlist.remove: when the index is in range, delete the
item and clamp the current index to the last valid slot (or 0) when it now
points past the end. -/
def Playlist.remove (p : Playlist) (idx : Int) : Playlist :=
  if 0 ≤ idx ∧ idx < (p.items.length : Int) then
    if ((p.items.eraseIdx idx.toNat).length : Int) ≤ p.index then
      { items := p.items.eraseIdx idx.toNat,
        index := max 0 (((p.items.eraseIdx idx.toNat).length : Int) - 1) }
    else
      { items := p.items.eraseIdx idx.toNat, index := p.index }
  else p

/-- Translation of Playlist.next: None on an empty list, otherwise advance
the index modulo the length and return the new current item. -/
def Playlist.next (p : Playlist) : Playlist × Option String :=
  if p.items = [] then (p, none)
  else
    let p2 : Playlist := { p with index := (p.index + 1) % (p.items.length : Int) }
    (p2, p2.current)

/-- Translation of Playlist.prev: None on an empty list, otherwise retreat
the index modulo the length and return the new current item. -/
def Playlist.prev (p : Playlist) : Playlist × Option String :=
  if p.items = [] then (p, none)
  else
    let p2 : Playlist := { p with index := (p.index - 1) % (p.items.length : Int) }
    (p2, p2.current)

/-- Translation of Playlist.jump: when the index is in range, move to it
and return the new current item, otherwise return None and change
nothing. -/
def Playlist.jump (p : Playlist) (idx : Int) : Playlist × Option String :=
  if 0 ≤ idx ∧ idx < (p.items.length : Int) then
    let p2 : Playlist := { p with index := idx }
    (p2, p2.current)
  else (p, none)

/-- Translation of Playlist.shuffle: random.shuffle permutes the items in
place, so the permuted list is passed as an argument here.  On a nonempty
list the index is moved to the first occurrence of the previously current
item when it is still present, and to 0 otherwise.  The none branch of the
match mirrors the IndexError case of Python, unreachable while the class
invariant holds. -/
def Playlist.shuffle (p : Playlist) (shuffled : List String) : Playlist :=
  if p.items = [] then p
  else
    match p.current with
    | some cur =>
        if cur ∈ shuffled then
          { items := shuffled, index := (shuffled.indexOf cur : Int) }
        else
          { items := shuffled, index := 0 }
    | none => { items := shuffled, index := 0 }

/-- Translation of Playlist.clear. -/
def Playlist.clear (_p : Playlist) : Playlist :=
  { items := [], index := 0 }

/-- Invariant of class Playlist: index 0 on an empty list, otherwise an
index inside the list. -/
def Playlist.inv (p : Playlist) : Prop :=
  (p.items = [] ∧ p.index = 0) ∨
  (p.items ≠ [] ∧ 0 ≤ p.index ∧ p.index < (p.items.length : Int))

/-! ## Demonstration state used by the concrete witnesses -/

/-- Concrete session state: three tracks, index 0, a playing engine at
volume 50. -/
def demoSt : CliSt :=
  { current := 0
    files := ["audio/a.mp3", "audio/b.mp3", "audio/c.mp3"]
    folder := "audio"
    fs := { isdir := true
            entries := [{ name := "a.mp3", isFile := true },
                        { name := "b.mp3", isFile := true },
                        { name := "c.mp3", isFile := true }] }
    engine := { volume := 50, muted := false, playState := PlayState.playing } }

/-- Concrete Beta state matching scenario 7 of the spec: three tracks,
current index 2, repeat off. -/
def demoBeta : BetaState :=
  { current := 2
    repeatFlag := false
    ended := false
    next_index := 0
    files := ["audio/a.mp3", "audio/b.mp3", "audio/c.mp3"] }

/-! ## Arithmetic helper lemmas -/

/-- Adding one inside a modulus agrees with adding one outside. -/
theorem emod_add_one (a n : Int) : (a % n + 1) % n = (a + 1) % n := by
  conv_rhs => rw [Int.add_emod]
  rw [Int.add_emod (a % n) 1 n, Int.emod_emod_of_dvd _ dvd_rfl]

/-- Subtracting one inside a modulus agrees with subtracting one outside. -/
theorem emod_sub_one (a n : Int) : (a % n - 1) % n = (a - 1) % n := by
  conv_rhs => rw [Int.sub_emod]
  rw [Int.sub_emod (a % n) 1 n, Int.emod_emod_of_dvd _ dvd_rfl]

/-- Negation modulo n as a subtraction from n. -/
theorem neg_emod_eq (k n : Int) : (-k) % n = (n - k % n) % n := by
  conv_lhs => rw [show (-k : Int) = 0 - k by ring, Int.sub_emod]
  conv_rhs => rw [Int.sub_emod, Int.emod_self, Int.emod_emod_of_dvd _ dvd_rfl]
  rw [Int.zero_emod]

/-! ## Evaluation lemmas for the command step -/

/-- Processing next leaves the playlist unchanged. -/
theorem stepNext_files (s : CliSt) : (stepNext s).files = s.files := rfl

/-- Processing next moves the index by clamp_index of the successor. -/
theorem stepNext_current (s : CliSt) :
    (stepNext s).current = clamp_index (s.current + 1) (s.files.length : Int) := rfl

/-- Processing prev leaves the playlist unchanged. -/
theorem stepPrev_files (s : CliSt) : (stepPrev s).files = s.files := rfl

/-- Processing prev moves the index by clamp_index of the predecessor. -/
theorem stepPrev_current (s : CliSt) :
    (stepPrev s).current = clamp_index (s.current - 1) (s.files.length : Int) := rfl

/-! ## Claims -/

/-- C9: clamp_index is total: for every integer index, when n is at most 0
it returns 0 (there is no modulo-by-zero error), and when n is at least 1
it returns index mod n, which lies in the interval from 0 to n - 1. -/
theorem clamp_index_total (index n : Int) :
    (n ≤ 0 → clamp_index index n = 0) ∧
    (1 ≤ n → clamp_index index n = index % n ∧
      0 ≤ clamp_index index n ∧ clamp_index index n < n) := by
  constructor
  · intro h
    simp [clamp_index, h]
  · intro h
    have hn : ¬ n ≤ 0 := by omega
    rw [clamp_index, if_neg hn]
    exact ⟨rfl, Int.emod_nonneg index (by omega), Int.emod_lt_of_pos index (by omega)⟩

/-- Witness for C9 at concrete inputs. -/
theorem clamp_index_total_witness :
    clamp_index 5 0 = 0 ∧
    (clamp_index 7 3 = 7 % 3 ∧ 0 ≤ clamp_index 7 3 ∧ clamp_index 7 3 < 3) :=
  ⟨(clamp_index_total 5 0).1 (by decide), (clamp_index_total 7 3).2 (by decide)⟩

/-- C2: for every playlist of N at least 1 tracks, starting from current
index 0, processing k consecutive next commands leaves the current index
equal to k mod N. -/
theorem next_advances_mod (st : CliSt) (k : Nat)
    (h1 : 1 ≤ st.files.length) (h0 : st.current = 0) :
    (stepNext^[k] st).current = (k : Int) % (st.files.length : Int) := by
  have key : ∀ m : Nat,
      (stepNext^[m] st).files = st.files ∧
      (stepNext^[m] st).current = (m : Int) % (st.files.length : Int) := by
    intro m
    induction m with
    | zero =>
        rw [Function.iterate_zero_apply]
        exact ⟨rfl, by rw [h0]; simp⟩
    | succ m ih =>
        obtain ⟨hf, hc⟩ := ih
        constructor
        · rw [Function.iterate_succ_apply', stepNext_files, hf]
        · rw [Function.iterate_succ_apply', stepNext_current, hf, hc]
          have hn : ¬ ((st.files.length : Int) ≤ 0) := by omega
          rw [clamp_index, if_neg hn]
          push_cast
          exact emod_add_one (m : Int) _
  exact (key k).2

/-- Witness for C2: five next commands on a three-track playlist. -/
theorem next_advances_mod_witness :
    1 ≤ demoSt.files.length ∧
    (stepNext^[5] demoSt).current = (5 : Int) % (demoSt.files.length : Int) :=
  ⟨by decide, next_advances_mod demoSt 5 (by decide) (by decide)⟩

/-- C3: for every playlist of N at least 1 tracks, starting from current
index 0, processing k consecutive prev commands leaves the current index
equal to (N - (k mod N)) mod N. -/
theorem prev_retreats_mod (st : CliSt) (k : Nat)
    (h1 : 1 ≤ st.files.length) (h0 : st.current = 0) :
    (stepPrev^[k] st).current =
      ((st.files.length : Int) - (k : Int) % (st.files.length : Int)) %
        (st.files.length : Int) := by
  have key : ∀ m : Nat,
      (stepPrev^[m] st).files = st.files ∧
      (stepPrev^[m] st).current = (-(m : Int)) % (st.files.length : Int) := by
    intro m
    induction m with
    | zero =>
        rw [Function.iterate_zero_apply]
        exact ⟨rfl, by rw [h0]; simp⟩
    | succ m ih =>
        obtain ⟨hf, hc⟩ := ih
        constructor
        · rw [Function.iterate_succ_apply', stepPrev_files, hf]
        · rw [Function.iterate_succ_apply', stepPrev_current, hf, hc]
          have hn : ¬ ((st.files.length : Int) ≤ 0) := by omega
          rw [clamp_index, if_neg hn, emod_sub_one]
          push_cast
          ring_nf
  have final := (key k).2
  rw [neg_emod_eq] at final
  exact final

/-- Witness for C3: four prev commands on a three-track playlist. -/
theorem prev_retreats_mod_witness :
    1 ≤ demoSt.files.length ∧
    (stepPrev^[4] demoSt).current =
      ((demoSt.files.length : Int) - (4 : Int) % (demoSt.files.length : Int)) %
        (demoSt.files.length : Int) :=
  ⟨by decide, prev_retreats_mod demoSt 4 (by decide) (by decide)⟩

/-- C4: volume setting is always clamped to the interval 0..100: for every
integer x, set_volume stores max(0, min(100, x)), as does safe_set_volume;
and the command stream v 150, v -10, v 50 applied in order through the
command loop yields stored volumes 100, 0, 50. -/
theorem volume_always_clamped :
    (∀ (e : Engine) (x : Int),
      (set_volume e x).volume = max 0 (min 100 x) ∧
      (safe_set_volume e x).1.volume = max 0 (min 100 x)) ∧
    runVolumes demoSt ["v 150", "v -10", "v 50"] = [100, 0, 50] := by
  refine ⟨fun e x => ⟨rfl, rfl⟩, ?_⟩
  rfl

/-- C6: processing next or prev commits the index change even when the
subsequent play call of the outer loop fails: the moved index is already
stored when the inner loop breaks, the outcome is a new-track break rather
than loop termination, and the failed resumption reports the failure and
keeps the moved index. -/
theorem failed_play_commits_index (st : CliSt) (h : 1 ≤ st.files.length) :
    ((processCmd st "next").1.current = (st.current + 1) % (st.files.length : Int) ∧
     (processCmd st "next").2 = InnerOutcome.newTrack ∧
     (outerResume (processCmd st "next").1 false).1.current =
       (processCmd st "next").1.current ∧
     (outerResume (processCmd st "next").1 false).2 = true) ∧
    ((processCmd st "prev").1.current = (st.current - 1) % (st.files.length : Int) ∧
     (processCmd st "prev").2 = InnerOutcome.newTrack ∧
     (outerResume (processCmd st "prev").1 false).1.current =
       (processCmd st "prev").1.current ∧
     (outerResume (processCmd st "prev").1 false).2 = true) := by
  have hn : ¬ ((st.files.length : Int) ≤ 0) := by omega
  refine ⟨⟨?_, rfl, rfl, rfl⟩, ?_, rfl, rfl, rfl⟩
  · show clamp_index (st.current + 1) (st.files.length : Int) = _
    rw [clamp_index, if_neg hn]
  · show clamp_index (st.current - 1) (st.files.length : Int) = _
    rw [clamp_index, if_neg hn]

/-- Witness for C6 on the three-track demonstration state. -/
theorem failed_play_commits_index_witness :
    1 ≤ demoSt.files.length ∧
    (processCmd demoSt "next").1.current =
      (demoSt.current + 1) % (demoSt.files.length : Int) ∧
    (outerResume (processCmd demoSt "next").1 false).1.current =
      (processCmd demoSt "next").1.current :=
  ⟨by decide, (failed_play_commits_index demoSt (by decide)).1.1,
   (failed_play_commits_index demoSt (by decide)).1.2.2.1⟩

/-- C7: pause toggling has period 2: from the playing state, processing
the pause command twice returns the engine to the playing state (through
paused in between), leaving the current index and the playlist
unchanged. -/
theorem pause_toggle_period_two (st : CliSt)
    (h : st.engine.playState = PlayState.playing) :
    (processCmd (processCmd st "pause").1 "pause").1.engine.playState =
      PlayState.playing ∧
    (processCmd st "pause").1.engine.playState = PlayState.paused ∧
    (processCmd (processCmd st "pause").1 "pause").1.current = st.current ∧
    (processCmd (processCmd st "pause").1 "pause").1.files = st.files := by
  refine ⟨?_, ?_, rfl, rfl⟩
  · show (enginePause (enginePause st.engine)).playState = PlayState.playing
    simp [enginePause, h]
  · show (enginePause st.engine).playState = PlayState.paused
    simp [enginePause, h]

/-- Witness for C7 on the playing demonstration state. -/
theorem pause_toggle_period_two_witness :
    demoSt.engine.playState = PlayState.playing ∧
    (processCmd (processCmd demoSt "pause").1 "pause").1.engine.playState =
      PlayState.playing :=
  ⟨by decide, (pause_toggle_period_two demoSt (by decide)).1⟩

/-- Prepending v and a space makes the v-space guard true. -/
theorem startsWithVSpace_append (rest : String) :
    startsWithVSpace ("v " ++ rest) = true := rfl

/-- A string that starts with v and a space differs from any string whose
v-space guard is false. -/
theorem vSpace_ne (rest s : String) (hs : startsWithVSpace s = false) :
    ¬("v " ++ rest = s) := by
  intro h
  rw [← h, startsWithVSpace_append rest] at hs
  exact Bool.noConfusion hs

/-- Commands starting with v and a space reach the exact-volume branch of
the command chain. -/
theorem processCmd_vSpace (st : CliSt) (rest : String) :
    processCmd st ("v " ++ rest) = handleVSet st ("v " ++ rest) := by
  have n1 : ¬("v " ++ rest = "play" ∨ "v " ++ rest = "p") := by
    rintro (h | h) <;> exact vSpace_ne rest _ (by decide) h
  have n2 : ¬("v " ++ rest = "pause") := vSpace_ne rest _ (by decide)
  have n3 : ¬("v " ++ rest = "stop" ∨ "v " ++ rest = "s") := by
    rintro (h | h) <;> exact vSpace_ne rest _ (by decide) h
  have n4 : ¬("v " ++ rest = "volume" ∨ "v " ++ rest = "vol") := by
    rintro (h | h) <;> exact vSpace_ne rest _ (by decide) h
  have n5 : ¬("v " ++ rest = "v+") := vSpace_ne rest _ (by decide)
  have n6 : ¬("v " ++ rest = "v-") := vSpace_ne rest _ (by decide)
  unfold processCmd
  rw [if_neg n1, if_neg n2, if_neg n3, if_neg n4, if_neg n5, if_neg n6,
      if_pos (startsWithVSpace_append rest)]

/-- The exact-volume branch never touches the index or the playlist, for
any command string, whether or not the value parses. -/
theorem handleVSet_frame (st : CliSt) (c : String) :
    (handleVSet st c).1.current = st.current ∧
    (handleVSet st c).1.files = st.files ∧
    (handleVSet st c).2 = InnerOutcome.stay := by
  unfold handleVSet
  split
  · exact ⟨rfl, rfl, rfl⟩
  · split
    · exact ⟨rfl, rfl, rfl⟩
    · exact ⟨rfl, rfl, rfl⟩

/-- C8: frame property of the volume and mute commands: for every session
state, processing volume, v+, v-, m, mute, or any command starting with v
and a space (in particular v followed by a number) leaves the current
index and the playlist unchanged and stays in the inner loop; only the
engine-owned volume and mute state may change. -/
theorem volume_mute_frame (st : CliSt) (c : String)
    (h : c ∈ ["volume", "v+", "v-", "m", "mute"] ∨ ∃ rest, c = "v " ++ rest) :
    (processCmd st c).1.current = st.current ∧
    (processCmd st c).1.files = st.files ∧
    (processCmd st c).2 = InnerOutcome.stay := by
  rcases h with h | ⟨rest, rfl⟩
  · fin_cases h <;> exact ⟨rfl, rfl, rfl⟩
  · rw [processCmd_vSpace]
    exact handleVSet_frame st _

/-- Witness for C8: the command v 150 on the demonstration state. -/
theorem volume_mute_frame_witness :
    (processCmd demoSt "v 150").1.current = demoSt.current ∧
    (processCmd demoSt "v 150").1.files = demoSt.files ∧
    (processCmd demoSt "v 150").2 = InnerOutcome.stay :=
  volume_mute_frame demoSt "v 150" (Or.inr ⟨"150", rfl⟩)

/-- C1: end-of-track reconciliation in MF_Player_Beta.py: for a playlist
of N at least 1 tracks with current index i in range, when the ended
notification set by _on_track_end is consumed by one loop iteration, with
repeat off the current index becomes (i + 1) mod N and exactly one play
directive is issued for that new index; with repeat on the current index
stays i and exactly one play directive is re-issued for the same index. -/
theorem end_of_track_reconciliation (st : BetaState)
    (h1 : 1 ≤ st.files.length) (h2 : 0 ≤ st.current)
    (h3 : st.current < (st.files.length : Int)) :
    (st.repeatFlag = false →
      (betaLoopIterAfterEnd (on_track_end st)).1.current =
        (st.current + 1) % (st.files.length : Int) ∧
      (betaLoopIterAfterEnd (on_track_end st)).2 =
        [(st.current + 1) % (st.files.length : Int)]) ∧
    (st.repeatFlag = true →
      (betaLoopIterAfterEnd (on_track_end st)).1.current = st.current ∧
      (betaLoopIterAfterEnd (on_track_end st)).2 = [st.current]) := by
  have hn0 : st.files.length ≠ 0 := by omega
  have hn : ¬ ((st.files.length : Int) ≤ 0) := by omega
  constructor
  · intro hr
    have he : on_track_end st =
        { st with next_index := (st.current + 1) % (st.files.length : Int),
                  ended := true } := by
      simp [on_track_end, hr, hn0]
    have hc : clamp_index ((st.current + 1) % (st.files.length : Int))
        (st.files.length : Int) = (st.current + 1) % (st.files.length : Int) := by
      rw [clamp_index, if_neg hn]
      exact Int.emod_emod_of_dvd _ dvd_rfl
    rw [he]
    simp only [betaLoopIterAfterEnd]
    exact ⟨hc, by rw [hc]; simp⟩
  · intro hr
    have he : on_track_end st =
        { st with next_index := st.current, ended := true } := by
      simp [on_track_end, hr]
    have hc : clamp_index st.current (st.files.length : Int) = st.current := by
      rw [clamp_index, if_neg hn]
      exact Int.emod_eq_of_lt h2 h3
    rw [he]
    simp only [betaLoopIterAfterEnd]
    exact ⟨hc, by rw [hc]; simp⟩

/-- Witness for C1: scenario 7 of the spec, three tracks with current
index 2 and repeat off; the index wraps to 0 and one play is issued. -/
theorem end_of_track_reconciliation_witness :
    demoBeta.repeatFlag = false ∧
    ((betaLoopIterAfterEnd (on_track_end demoBeta)).1.current =
      (demoBeta.current + 1) % (demoBeta.files.length : Int) ∧
     (betaLoopIterAfterEnd (on_track_end demoBeta)).2 =
      [(demoBeta.current + 1) % (demoBeta.files.length : Int)]) :=
  ⟨rfl,
   (end_of_track_reconciliation demoBeta (by decide) (by decide) (by decide)).1 rfl⟩

/-- C5: startup error handling of cli.main: for every folder argument, a
missing folder makes the playlist scan fail with a not-found error and the
program exit with code 1, and a folder whose entries contain no matching
media file also makes the program exit with code 1; in both cases no
player-creation event appears in the startup trace. -/
theorem startup_errors_exit_before_engine (folder : String) (fs : FS) :
    (fs.isdir = false →
      find_media_files folder fs ALLOWED_EXT = Except.error folder ∧
      mainStartup folder fs = [StartEvent.scanFailed, StartEvent.exited 1] ∧
      StartEvent.playerCreated ∉ mainStartup folder fs) ∧
    (fs.isdir = true →
      fs.entries.filter (scanKeep folder ALLOWED_EXT) = [] →
      mainStartup folder fs = [StartEvent.emptyPlaylist, StartEvent.exited 1] ∧
      StartEvent.playerCreated ∉ mainStartup folder fs) := by
  constructor
  · intro hd
    have hf : find_media_files folder fs ALLOWED_EXT = Except.error folder := by
      simp [find_media_files, hd]
    refine ⟨hf, ?_, ?_⟩
    · simp [mainStartup, hf]
    · simp [mainStartup, hf]
  · intro hd hfil
    have hf : find_media_files folder fs ALLOWED_EXT = Except.ok [] := by
      simp [find_media_files, hd, hfil, sortStrings]
    constructor
    · simp [mainStartup, hf]
    · simp [mainStartup, hf]

/-- Witness for C5: a missing folder, and a folder holding only a text
file. -/
theorem startup_errors_exit_before_engine_witness :
    mainStartup "audio" { isdir := false, entries := [] } =
      [StartEvent.scanFailed, StartEvent.exited 1] ∧
    mainStartup "audio"
        { isdir := true, entries := [{ name := "notes.txt", isFile := true }] } =
      [StartEvent.emptyPlaylist, StartEvent.exited 1] :=
  ⟨((startup_errors_exit_before_engine "audio"
      { isdir := false, entries := [] }).1 rfl).2.1,
   ((startup_errors_exit_before_engine "audio"
      { isdir := true, entries := [{ name := "notes.txt", isFile := true }] }).2
      rfl (by decide)).1⟩

/-- C10: every operation of class Playlist preserves the invariant that
the index is 0 on an empty list and lies inside the list otherwise; and
next, prev and jump return None and leave the index unchanged when they
cannot produce a valid track (empty list for next and prev, out-of-range
argument for jump). -/
theorem playlist_ops_preserve_invariant (p : Playlist) (hp : p.inv) :
    (∀ s, (p.add s).inv) ∧
    (∀ i, (p.remove i).inv) ∧
    ((p.next).1.inv ∧
      (p.items = [] → (p.next).2 = none ∧ (p.next).1.index = p.index)) ∧
    ((p.prev).1.inv ∧
      (p.items = [] → (p.prev).2 = none ∧ (p.prev).1.index = p.index)) ∧
    (∀ i, (p.jump i).1.inv ∧
      (¬(0 ≤ i ∧ i < (p.items.length : Int)) →
        (p.jump i).2 = none ∧ (p.jump i).1.index = p.index)) ∧
    (∀ l, l.Perm p.items → (p.shuffle l).inv) ∧
    (p.clear).inv := by
  refine ⟨?_, ?_, ⟨?_, ?_⟩, ⟨?_, ?_⟩, ?_, ?_, ?_⟩
  · -- add
    intro s
    right
    refine ⟨by simp [Playlist.add], ?_, ?_⟩
    · rcases hp with ⟨he, hi⟩ | ⟨hne, h0, hlt⟩
      · simp [Playlist.add, hi]
      · simpa [Playlist.add] using h0
    · rcases hp with ⟨he, hi⟩ | ⟨hne, h0, hlt⟩
      · simp [Playlist.add, he, hi]
      · simp only [Playlist.add, List.length_append, List.length_cons,
          List.length_nil]
        push_cast
        omega
  · -- remove
    intro i
    by_cases hc : 0 ≤ i ∧ i < (p.items.length : Int)
    · have hnat : i.toNat < p.items.length := by omega
      have hlen : (p.items.eraseIdx i.toNat).length = p.items.length - 1 := by
        simp [List.length_eraseIdx, hnat]
      rw [Playlist.remove, if_pos hc]
      by_cases h2 : ((p.items.eraseIdx i.toNat).length : Int) ≤ p.index
      · rw [if_pos h2]
        rcases Nat.eq_zero_or_pos (p.items.eraseIdx i.toNat).length with h0 | h0
        · left
          refine ⟨List.length_eq_zero.mp h0, ?_⟩
          simp [h0]
        · right
          refine ⟨?_, ?_, ?_⟩
          · show p.items.eraseIdx i.toNat ≠ []
            intro hnil
            rw [hnil] at h0
            simp at h0
          · show (0 : Int) ≤ max 0 (((p.items.eraseIdx i.toNat).length : Int) - 1)
            exact le_max_left 0 _
          · show max 0 (((p.items.eraseIdx i.toNat).length : Int) - 1) <
              ((p.items.eraseIdx i.toNat).length : Int)
            exact max_lt_iff.mpr ⟨by omega, by omega⟩
      · rw [if_neg h2]
        push_neg at h2
        right
        have hidx : 0 ≤ p.index := by
          rcases hp with ⟨he, hi⟩ | ⟨_, h0, _⟩
          · omega
          · exact h0
        refine ⟨?_, hidx, h2⟩
        show p.items.eraseIdx i.toNat ≠ []
        intro hnil
        rw [hnil] at h2
        simp at h2
        omega
    · rw [Playlist.remove, if_neg hc]
      exact hp
  · -- next preserves the invariant
    rcases hp with ⟨he, hi⟩ | ⟨hne, h0, hlt⟩
    · simp only [Playlist.next, if_pos he]
      exact Or.inl ⟨he, hi⟩
    · have hL : 0 < (p.items.length : Int) := by
        have := List.length_pos.mpr hne
        omega
      simp only [Playlist.next, if_neg hne]
      exact Or.inr ⟨hne, Int.emod_nonneg _ (by omega), Int.emod_lt_of_pos _ hL⟩
  · -- next on an empty list
    intro hnil
    simp [Playlist.next, hnil]
  · -- prev preserves the invariant
    rcases hp with ⟨he, hi⟩ | ⟨hne, h0, hlt⟩
    · simp only [Playlist.prev, if_pos he]
      exact Or.inl ⟨he, hi⟩
    · have hL : 0 < (p.items.length : Int) := by
        have := List.length_pos.mpr hne
        omega
      simp only [Playlist.prev, if_neg hne]
      exact Or.inr ⟨hne, Int.emod_nonneg _ (by omega), Int.emod_lt_of_pos _ hL⟩
  · -- prev on an empty list
    intro hnil
    simp [Playlist.prev, hnil]
  · -- jump
    intro i
    by_cases hc : 0 ≤ i ∧ i < (p.items.length : Int)
    · constructor
      · simp only [Playlist.jump, if_pos hc]
        right
        refine ⟨?_, hc.1, hc.2⟩
        intro hnil
        rw [hnil] at hc
        simp at hc
        omega
      · intro hnc
        exact absurd hc hnc
    · constructor
      · simp only [Playlist.jump, if_neg hc]
        exact hp
      · intro _
        simp [Playlist.jump, hc]
  · -- shuffle, with the permuted item list as argument
    intro l hperm
    rcases hp with ⟨he, hi⟩ | ⟨hne, h0, hlt⟩
    · simp only [Playlist.shuffle, if_pos he]
      exact Or.inl ⟨he, hi⟩
    · have hlen : l.length = p.items.length := hperm.length_eq
      have hlne : l ≠ [] := by
        intro hnil
        rw [hnil] at hlen
        have := List.length_pos.mpr hne
        simp at hlen
        omega
      have hLl : 0 < (l.length : Int) := by
        have := List.length_pos.mpr hlne
        omega
      simp only [Playlist.shuffle, if_neg hne]
      cases hcur : p.current with
      | none => exact Or.inr ⟨hlne, le_refl 0, hLl⟩
      | some cur =>
          show Playlist.inv
            (if cur ∈ l then { items := l, index := ((l.indexOf cur : Nat) : Int) }
             else { items := l, index := 0 })
          by_cases hmem : cur ∈ l
          · rw [if_pos hmem]
            right
            refine ⟨hlne, Int.natCast_nonneg _, ?_⟩
            show ((l.indexOf cur : Nat) : Int) < (l.length : Int)
            have hio := List.indexOf_lt_length.mpr hmem
            exact_mod_cast hio
          · rw [if_neg hmem]
            exact Or.inr ⟨hlne, le_refl 0, hLl⟩
  · -- clear
    exact Or.inl ⟨rfl, rfl⟩

/-- Witness for C10 on a two-track playlist with index 1. -/
theorem playlist_ops_preserve_invariant_witness :
    Playlist.inv { items := ["a", "b"], index := 1 } ∧
    Playlist.inv (Playlist.add { items := ["a", "b"], index := 1 } "c") ∧
    Playlist.inv (Playlist.next { items := ["a", "b"], index := 1 }).1 :=
  have hp : Playlist.inv { items := ["a", "b"], index := 1 } :=
    Or.inr ⟨by decide, by decide, by decide⟩
  ⟨hp, (playlist_ops_preserve_invariant _ hp).1 "c",
   (playlist_ops_preserve_invariant _ hp).2.2.1.1⟩

end MFPlayer
